import Mathlib

/-!
Verification of the core pixel-processing logic of the rug-design app
(`src/App.tsx`, `src/components/GridCanvas.tsx`, `src/types.ts`).

JavaScript numbers are modelled as exact rationals (`ℚ`) where fractional
values occur (blend factors, channel means, the `rmean` of the redmean
distance); 8-bit color channels are modelled as `ℤ`.  `Math.round` is
Mathlib's `round` (round half towards `+∞`, i.e. `⌊x + 1/2⌋`, which agrees
with `Math.round` on all rationals).  The JS shift `>> 8` is floor
division by `256` (`Int.fdiv`), applied after `ToInt32` truncation of the
shiftee; on the non-negative products appearing in `getColorDistance`
for 8-bit channels, `ToInt32` truncation coincides with `Int.floor`.
-/

/-- An r,g,b triple, as produced by `hexToRgb` (`App.tsx`, `GridCanvas.tsx`). -/
structure RGB where
  r : ℤ
  g : ℤ
  b : ℤ
deriving DecidableEq, Repr

/-- `PixelData` from `src/types.ts`: channels plus the cached hex string. -/
structure Pixel where
  r : ℤ
  g : ℤ
  b : ℤ
  hex : List Char
deriving DecidableEq, Repr

/-- A character matched by the regex class `[a-f\d]` under the `i` flag. -/
def isHexDigit (c : Char) : Bool :=
  ('0' ≤ c && c ≤ '9') || ('a' ≤ c && c ≤ 'f') || ('A' ≤ c && c ≤ 'F')

/-- Value of one hex digit, as `parseInt(_, 16)` assigns it. -/
def hexDigitVal (c : Char) : ℤ :=
  if '0' ≤ c && c ≤ '9' then (c.toNat : ℤ) - ('0'.toNat : ℤ)
  else if 'a' ≤ c && c ≤ 'f' then (c.toNat : ℤ) - ('a'.toNat : ℤ) + 10
  else (c.toNat : ℤ) - ('A'.toNat : ℤ) + 10

/-- The optional leading `#` of the regex `/^#?([a-f\d]{2})([a-f\d]{2})([a-f\d]{2})$/i`:
a leading `#` is consumed (it can never match `[a-f\d]`), anything else is left. -/
def stripHash (s : List Char) : List Char :=
  match s with
  | c :: rest => if c = '#' then rest else s
  | [] => s

/-- The three two-digit capture groups of the regex: exactly six hex digits,
parsed pairwise with `parseInt(_, 16)`. -/
def sixHex (t : List Char) : Option RGB :=
  match t with
  | [h1, h2, h3, h4, h5, h6] =>
      if isHexDigit h1 && isHexDigit h2 && isHexDigit h3 &&
         isHexDigit h4 && isHexDigit h5 && isHexDigit h6 then
        some ⟨16 * hexDigitVal h1 + hexDigitVal h2,
              16 * hexDigitVal h3 + hexDigitVal h4,
              16 * hexDigitVal h5 + hexDigitVal h6⟩
      else none
  | _ => none

/-- `hexToRgb` (identical in `App.tsx` lines 29-36 and `GridCanvas.tsx` lines 16-23):
anchored match of `/^#?([a-f\d]{2})([a-f\d]{2})([a-f\d]{2})$/i`, `null` on failure. -/
def hexToRgb (s : List Char) : Option RGB :=
  sixHex (stripHash s)

/-- Modelled from the spec's words for claim C8: the success condition
"an optional `#` followed by exactly 6 hexadecimal digits, case-insensitively". -/
def validHexString (s : List Char) : Prop :=
  ∃ t, (s = '#' :: t ∨ s = t) ∧ t.length = 6 ∧ ∀ c ∈ t, isHexDigit c = true

/-- `rgbToHex` (`App.tsx` lines 39-41, `GridCanvas.tsx` lines 26-28):
`"#" + ((1 << 24) + (r << 16) + (g << 8) + b).toString(16).slice(1)`.
For channels in `[0, 255]` the sum is in `[2^24, 2^25)`, so its hex string is
a `1` followed by six lowercase digits and `slice(1)` drops the leading `1`. -/
def rgbToHex (r g b : ℤ) : List Char :=
  '#' :: ((Nat.toDigits 16 ((2 ^ 24 + r * 2 ^ 16 + g * 2 ^ 8 + b).toNat)).drop 1)

/-- `blendColors` (`GridCanvas.tsx` lines 31-40): returns `fg` outright when
`alpha >= 1`, otherwise per-channel `Math.round(bg*(1-alpha)+fg*alpha)`.
Note: the source performs no clamping. -/
def blendColors (bg fg : RGB) (alpha : ℚ) : RGB :=
  if 1 ≤ alpha then fg
  else
    { r := round ((bg.r : ℚ) * (1 - alpha) + (fg.r : ℚ) * alpha)
      g := round ((bg.g : ℚ) * (1 - alpha) + (fg.g : ℚ) * alpha)
      b := round ((bg.b : ℚ) * (1 - alpha) + (fg.b : ℚ) * alpha) }

/-- Clamp to `[0, 255]`, as the spec's words describe it. -/
def clamp255 (n : ℤ) : ℤ := min 255 (max 0 n)

/-- Modelled from the spec's words for claim C5: per-channel
`round(background*(1-alpha) + foreground*alpha)` independently clamped to `[0,255]`. -/
def specBlendColors (bg fg : RGB) (alpha : ℚ) : RGB :=
  { r := clamp255 (round ((bg.r : ℚ) * (1 - alpha) + (fg.r : ℚ) * alpha))
    g := clamp255 (round ((bg.g : ℚ) * (1 - alpha) + (fg.g : ℚ) * alpha))
    b := clamp255 (round ((bg.b : ℚ) * (1 - alpha) + (fg.b : ℚ) * alpha)) }

/-- All three channels within the 8-bit range `[0, 255]`. -/
def inRange (c : RGB) : Prop :=
  0 ≤ c.r ∧ c.r ≤ 255 ∧ 0 ≤ c.g ∧ c.g ≤ 255 ∧ 0 ≤ c.b ∧ c.b ≤ 255

instance (c : RGB) : Decidable (inRange c) := by
  unfold inRange
  infer_instance

/-- `removeColorFromPalette` (`App.tsx` lines 388-392): rejected (palette kept)
when the palette has at most 2 entries, otherwise
`palette.filter((_, i) => i !== index)`. -/
def removeColorFromPalette (palette : List (List Char)) (index : ℕ) : List (List Char) :=
  if palette.length ≤ 2 then palette
  else (palette.enum.filter (fun p => p.1 ≠ index)).map Prod.snd

/-- The radicand of `getColorDistance` (`App.tsx` lines 44-50):
`(((512 + rmean) * r * r) >> 8) + 4 * g * g + (((767 - rmean) * b * b) >> 8)`
with `rmean = (c1.r + c2.r) / 2` (possibly a half-integer).  JS `>> 8` first
truncates its operand with `ToInt32` and then arithmetic-shifts, i.e. floor
divides by 256; both weighted products are non-negative for 8-bit channels,
so `ToInt32` truncation is `Int.floor` there. -/
def distSq (c1 c2 : RGB) : ℤ :=
  let rmean : ℚ := ((c1.r : ℚ) + (c2.r : ℚ)) / 2
  let dr : ℚ := (c1.r : ℚ) - (c2.r : ℚ)
  let dg : ℤ := c1.g - c2.g
  let db : ℚ := (c1.b : ℚ) - (c2.b : ℚ)
  Int.fdiv ⌊(512 + rmean) * (dr * dr)⌋ 256 + 4 * (dg * dg) +
    Int.fdiv ⌊(767 - rmean) * (db * db)⌋ 256

/-- `getColorDistance` (`App.tsx` lines 44-50): `Math.sqrt` of `distSq`. -/
noncomputable def getColorDistance (c1 c2 : RGB) : ℝ :=
  Real.sqrt ((distSq c1 c2 : ℤ) : ℝ)

/-- Modelled from the spec's words for claim C2: the redmean distance in exact
real arithmetic, `sqrt(weight_r*dr^2 + 4*dg^2 + weight_b*db^2)` with
`weight_r = (512+rmean)/256` and `weight_b = (767-rmean)/256`. -/
noncomputable def specColorDistance (c1 c2 : RGB) : ℝ :=
  let rmean : ℝ := ((c1.r : ℝ) + (c2.r : ℝ)) / 2
  let dr : ℝ := (c1.r : ℝ) - (c2.r : ℝ)
  let dg : ℝ := (c1.g : ℝ) - (c2.g : ℝ)
  let db : ℝ := (c1.b : ℝ) - (c2.b : ℝ)
  Real.sqrt ((512 + rmean) / 256 * (dr * dr) + 4 * (dg * dg) +
    (767 - rmean) / 256 * (db * db))

/-- `ToolType` from `src/types.ts`. -/
inductive ToolType
  | none
  | brush
  | eraser
  | dropper
deriving DecidableEq, Repr

/-- Row-major cell access into the pixel grid (`pixels[y][x]`). -/
def cellAt (g : List (List Pixel)) (y x : ℕ) : Option Pixel :=
  (g[y]?).bind fun row => row[x]?

/-- The pixel value the paint loop writes: the blended channels plus their hex
(`GridCanvas.tsx` lines 96-106). -/
def blendedPixel (paintRgb : RGB) (alpha : ℚ) (px : Pixel) : Pixel :=
  { r := (blendColors ⟨px.r, px.g, px.b⟩ paintRgb alpha).r
    g := (blendColors ⟨px.r, px.g, px.b⟩ paintRgb alpha).g
    b := (blendColors ⟨px.r, px.g, px.b⟩ paintRgb alpha).b
    hex := rgbToHex (blendColors ⟨px.r, px.g, px.b⟩ paintRgb alpha).r
      (blendColors ⟨px.r, px.g, px.b⟩ paintRgb alpha).g
      (blendColors ⟨px.r, px.g, px.b⟩ paintRgb alpha).b }

/-- One loop-body step of `handleDraw` (`GridCanvas.tsx` lines 79-111) at target
coordinate `t`: bounds check against the configured grid size, skip of a missing
pixel (`if (!currentPixel) continue`), blend, and a write only when the hex
changes (then the `changed` flag is raised).  The JS row copy-on-write
(`newPixels[targetY] = [...prev[targetY]]`) is value-level identity and needs no
counterpart. -/
def paintCell (rows cols : ℕ) (paintRgb : RGB) (alpha : ℚ)
    (st : List (List Pixel) × Bool) (t : ℤ × ℤ) : List (List Pixel) × Bool :=
  if 0 ≤ t.1 ∧ t.1 < (rows : ℤ) ∧ 0 ≤ t.2 ∧ t.2 < (cols : ℤ) then
    match st.1[t.1.toNat]? with
    | Option.none => st
    | some row =>
      match row[t.2.toNat]? with
      | Option.none => st
      | some currentPixel =>
        if currentPixel.hex ≠ (blendedPixel paintRgb alpha currentPixel).hex then
          (st.1.set t.1.toNat
            (row.set t.2.toNat (blendedPixel paintRgb alpha currentPixel)), true)
        else st
  else st

/-- Paint color selection in `handleDraw` (`GridCanvas.tsx` lines 68-69): the
eraser always paints white; a brush color failing to parse falls back to white
(`hexToRgb(paintHex) || {r: 255, g: 255, b: 255}`). -/
def paintRgbFor (activeTool : ToolType) (brushColor : List Char) : RGB :=
  (hexToRgb (if activeTool = ToolType.eraser then "#ffffff".toList else brushColor)).getD
    ⟨255, 255, 255⟩

/-- One paint application: `handleDraw` (`GridCanvas.tsx` lines 47-114) acting on
the `setPixels` state, with the pointer-event plumbing (canvas ref, drag flag)
stripped.  Mirrors the source's guards: no tool or empty grid does nothing, an
out-of-grid pointer cell does nothing, the dropper never mutates; brush and
eraser run the `brushSize × brushSize` loop with `offset = floor(brushSize/2)`
and commit `newPixels` only if some cell changed (`return changed ? newPixels :
prev`). -/
def handleDraw (grid : List (List Pixel)) (rows cols : ℕ) (activeTool : ToolType)
    (mouseY mouseX : ℤ) (brushColor : List Char) (brushSize : ℕ)
    (brushOpacity : ℚ) : List (List Pixel) :=
  if activeTool = ToolType.none ∨ grid.length = 0 then grid
  else if mouseX < 0 ∨ (cols : ℤ) ≤ mouseX ∨ mouseY < 0 ∨ (rows : ℤ) ≤ mouseY then grid
  else if activeTool = ToolType.dropper then grid
  else
    let paintRgb := paintRgbFor activeTool brushColor
    let offset : ℤ := ((brushSize / 2 : ℕ) : ℤ)
    let result :=
      (List.range brushSize).foldl (fun st (dy : ℕ) =>
        (List.range brushSize).foldl (fun st (dx : ℕ) =>
          paintCell rows cols paintRgb brushOpacity st
            (mouseY - offset + (dy : ℤ), mouseX - offset + (dx : ℤ))) st)
        (grid, false)
    if result.2 then result.1 else grid

/-- Cell `(y, x)` is one of the in-window targets of a paint application at
pointer cell `(mouseY, mouseX)` with the given brush size. -/
def inWindow (mouseY mouseX : ℤ) (brushSize : ℕ) (y x : ℕ) : Prop :=
  ∃ dy ∈ List.range brushSize, ∃ dx ∈ List.range brushSize,
    mouseY - ((brushSize / 2 : ℕ) : ℤ) + (dy : ℤ) = (y : ℤ) ∧
    mouseX - ((brushSize / 2 : ℕ) : ℤ) + (dx : ℤ) = (x : ℤ)

instance (mouseY mouseX : ℤ) (brushSize : ℕ) (y x : ℕ) :
    Decidable (inWindow mouseY mouseX brushSize y x) := by
  unfold inWindow
  infer_instance

/-- The list of target coordinates visited by the `brushSize × brushSize` loop,
in visit order. -/
def brushTargets (mouseY mouseX : ℤ) (brushSize : ℕ) : List (ℤ × ℤ) :=
  (List.range brushSize).flatMap fun (dy : ℕ) =>
    (List.range brushSize).map fun (dx : ℕ) =>
      (mouseY - ((brushSize / 2 : ℕ) : ℤ) + (dy : ℤ),
       mouseX - ((brushSize / 2 : ℕ) : ℤ) + (dx : ℤ))

/-- A black pixel as the pipeline produces it (channels plus cached hex). -/
def blackPixel : Pixel := ⟨0, 0, 0, rgbToHex 0 0 0⟩

/-- A white pixel as the pipeline produces it. -/
def whitePixel : Pixel := ⟨255, 255, 255, rgbToHex 255 255 255⟩

/-- A 3×3 all-black grid. -/
def blackGrid3 : List (List Pixel) := List.replicate 3 (List.replicate 3 blackPixel)

/-- A 3×3 all-white grid. -/
def whiteGrid3 : List (List Pixel) := List.replicate 3 (List.replicate 3 whitePixel)

/-- The 3×3 black grid after a white size-3 full-opacity paint at corner (0,0):
exactly the four cells (0,0), (0,1), (1,0), (1,1) turn white. -/
def cornerGrid3 : List (List Pixel) :=
  [[whitePixel, whitePixel, blackPixel],
   [whitePixel, whitePixel, blackPixel],
   [blackPixel, blackPixel, blackPixel]]

/-- A palette entry as built in `processImage` (`App.tsx` line 179):
`{ hex, ...hexToRgb(hex) }`. -/
structure PaletteEntry where
  hex : List Char
  r : ℤ
  g : ℤ
  b : ℤ
deriving DecidableEq, Repr

/-- `paletteRgb` (`App.tsx` line 179): parse every palette hex, dropping entries
whose hex fails to parse (`filter(c => c.r !== undefined)`). -/
def paletteRgbOf (palette : List (List Char)) : List PaletteEntry :=
  palette.filterMap fun hx => (hexToRgb hx).map fun c => ⟨hx, c.r, c.g, c.b⟩

/-- Distance from a sampled color to a palette entry, as the mapper computes it
(`getColorDistance({r, g, b}, pColor)`, `App.tsx` line 195). -/
noncomputable def entryDist (c : RGB) (p : PaletteEntry) : ℝ :=
  getColorDistance c ⟨p.r, p.g, p.b⟩

/-- The scan of `processImage` (`App.tsx` lines 191-200): `minDist` starts at
`Infinity` (modelled as `⊤ : EReal`), and an entry is taken only on a strictly
smaller distance (`dist < minDist`). -/
noncomputable def scanClosest (c : RGB) :
    List PaletteEntry → EReal → PaletteEntry → PaletteEntry
  | [], _, closest => closest
  | p :: rest, minDist, closest =>
    if ((entryDist c p : ℝ) : EReal) < minDist then
      scanClosest c rest ((entryDist c p : ℝ) : EReal) p
    else
      scanClosest c rest minDist closest

/-- The whole nearest-entry selection of `processImage`: `closest` starts at
`paletteRgb[0]` and the loop runs over the entire palette; only defined (and only
run, `paletteRgb.length > 0`) for a non-empty palette. -/
noncomputable def findClosest (c : RGB) : List PaletteEntry → Option PaletteEntry
  | [] => Option.none
  | p :: rest => some (scanClosest c (p :: rest) ⊤ p)

/-- The three channel names the quantizer can split on (`'r' | 'g' | 'b'`). -/
inductive Channel
  | r
  | g
  | b
deriving DecidableEq, Repr

/-- Channel projection, as `p[component]` indexes an `RGB` in the sort callback. -/
def RGB.get (c : RGB) : Channel → ℤ
  | Channel.r => c.r
  | Channel.g => c.g
  | Channel.b => c.b

/-- The six running min/max variables of `findBiggestRange`
(`App.tsx` line 57), initialised to `minR=255, maxR=0, ...`. -/
structure RangeState where
  minR : ℤ
  maxR : ℤ
  minG : ℤ
  maxG : ℤ
  minB : ℤ
  maxB : ℤ
deriving DecidableEq, Repr

/-- `findBiggestRange` (`App.tsx` lines 56-70): one pass of conditional updates
(equivalent to `min`/`max`), then the sequential tie-resolution preferring
`r` over `g` over `b`. -/
def findBiggestRange (pixels : List RGB) : Channel :=
  let s := pixels.foldl
    (fun (s : RangeState) p =>
      ⟨min s.minR p.r, max s.maxR p.r, min s.minG p.g, max s.maxG p.g,
       min s.minB p.b, max s.maxB p.b⟩)
    ⟨255, 0, 255, 0, 255, 0⟩
  if s.maxR - s.minR ≥ s.maxG - s.minG ∧ s.maxR - s.minR ≥ s.maxB - s.minB then
    Channel.r
  else if s.maxG - s.minG ≥ s.maxR - s.minR ∧ s.maxG - s.minG ≥ s.maxB - s.minB then
    Channel.g
  else Channel.b

/-- The base case of `medianCutQuantization` (`App.tsx` lines 73-78):
`Math.round` of the per-channel mean (`reduce(...)/pixels.length`).  On an
empty sample JS computes `0/0 = NaN` per channel (`Math.round(NaN) = NaN`);
the resulting NaN color is modelled as `none`. -/
def meanPixel (pixels : List RGB) : Option RGB :=
  if pixels.length = 0 then Option.none
  else some
    { r := round (((pixels.foldl (fun a p => a + p.r) 0 : ℤ) : ℚ) / (pixels.length : ℚ))
      g := round (((pixels.foldl (fun a p => a + p.g) 0 : ℤ) : ℚ) / (pixels.length : ℚ))
      b := round (((pixels.foldl (fun a p => a + p.b) 0 : ℤ) : ℚ) / (pixels.length : ℚ)) }

/-- `medianCutQuantization` (`App.tsx` lines 72-90): base case at depth 0 or an
empty sample, otherwise sort by the widest-range channel (the JS in-place
`sort((a,b) => a[component] - b[component])` modelled as a merge sort — only
the multiset of the result matters below), split at `mid = floor(n/2)` and
recurse at `depth - 1` on both halves. -/
def medianCutQuantization : List RGB → ℕ → List (Option RGB)
  | pixels, 0 => [meanPixel pixels]
  | pixels, depth + 1 =>
    if pixels.length = 0 then [meanPixel pixels]
    else
      let component := findBiggestRange pixels
      let sorted := pixels.mergeSort (fun a b => a.get component ≤ b.get component)
      let mid := sorted.length / 2
      medianCutQuantization (sorted.take mid) depth ++
        medianCutQuantization (sorted.drop mid) depth

/-- Hex of a quantized color as `extractPaletteFromImage` computes it
(`App.tsx` line 421).  For the NaN color, JS evaluates
`"#" + ((1<<24) + (NaN<<16) + (NaN<<8) + NaN).toString(16).slice(1)`:
the shifts of NaN are 0 but the final `+ NaN` makes the sum NaN, whose radix-16
string is `"NaN"`, so the result is the 3-character string `"#aN"`. -/
def hexOfQuant : Option RGB → List Char
  | Option.none => ['#', 'a', 'N']
  | some c => rgbToHex c.r c.g c.b

/-- `[...new Set(xs)]` (`App.tsx` line 421): deduplication keeping the first
occurrence of each element, in order. -/
def dedupFirst (xs : List (List Char)) : List (List Char) :=
  xs.foldl (fun acc x => if x ∈ acc then acc else acc ++ [x]) []

/-- The palette `extractPaletteFromImage` derives from a sample: quantize, hex
each resulting color, deduplicate by hex keeping first occurrences. -/
def quantizedPalette (pixels : List RGB) (depth : ℕ) : List (List Char) :=
  dedupFirst ((medianCutQuantization pixels depth).map hexOfQuant)

lemma enumFrom_filter_ne_map {α : Type} (l : List α) : ∀ (n i : ℕ),
    ((List.enumFrom n l).filter (fun p => p.1 ≠ n + i)).map Prod.snd =
      l.eraseIdx i := by
  induction l with
  | nil => intro n i; simp
  | cons a l ih =>
    intro n i
    rw [List.enumFrom_cons, List.filter_cons]
    cases i with
    | zero =>
      have hd : (decide ((n, a).1 ≠ n + 0)) = false := by simp
      rw [hd, if_neg (by simp)]
      simp only [List.eraseIdx]
      have hall : (List.enumFrom (n + 1) l).filter (fun p => p.1 ≠ n + 0) =
          List.enumFrom (n + 1) l := by
        rw [List.filter_eq_self]
        intro p hp
        rcases p with ⟨j, x⟩
        have := (List.mem_enumFrom hp).1
        simp only [decide_eq_true_eq]
        omega
      rw [hall, List.enumFrom_map_snd]
    | succ j =>
      have hd : (decide ((n, a).1 ≠ n + (j + 1))) = true := by
        simp only [decide_eq_true_eq]
        omega
      rw [hd, if_pos rfl, List.map_cons]
      simp only [List.eraseIdx]
      have harith : n + (j + 1) = (n + 1) + j := by omega
      rw [harith, ih (n + 1) j]

lemma enum_filter_ne_map {α : Type} (l : List α) (i : ℕ) :
    ((l.enum).filter (fun p => p.1 ≠ i)).map Prod.snd = l.eraseIdx i := by
  have := enumFrom_filter_ne_map l 0 i
  simpa [List.enum] using this

/-- Helper: `round` of a rational in `[0, 255]` stays in `[0, 255]`. -/
lemma round_mem_range (x : ℚ) (h0 : 0 ≤ x) (h255 : x ≤ 255) :
    0 ≤ round x ∧ round x ≤ 255 := by
  rw [round_eq]
  constructor
  · exact Int.le_floor.mpr (by push_cast; linarith)
  · have : ⌊x + 1 / 2⌋ < 256 := Int.floor_lt.mpr (by push_cast; linarith)
    omega

/-- C9: removal from a palette of ≤ 2 entries is rejected (prior palette kept);
removal from a longer palette removes exactly the entry at the given index;
hence removal never takes the palette below length 2. -/
theorem removeColorFromPalette_spec (palette : List (List Char)) (index : ℕ) :
    (palette.length ≤ 2 → removeColorFromPalette palette index = palette) ∧
    (2 < palette.length →
      removeColorFromPalette palette index = palette.eraseIdx index) ∧
    (2 ≤ palette.length → 2 ≤ (removeColorFromPalette palette index).length) := by
  refine ⟨fun h => by simp [removeColorFromPalette, h], fun h => ?_, fun h => ?_⟩
  · rw [removeColorFromPalette, if_neg (by omega)]
    exact enum_filter_ne_map palette index
  · by_cases hle : palette.length ≤ 2
    · rw [removeColorFromPalette, if_pos hle]; omega
    · rw [removeColorFromPalette, if_neg hle, enum_filter_ne_map palette index,
        List.length_eraseIdx]
      split <;> omega

/-- C9 witness: removing index 1 from a 3-entry palette yields the other 2 entries. -/
theorem removeColorFromPalette_spec_witness :
    2 < ([['a'], ['b'], ['c']] : List (List Char)).length ∧
      removeColorFromPalette [['a'], ['b'], ['c']] 1 = [['a'], ['c']] := by
  refine ⟨by decide, ?_⟩
  rw [(removeColorFromPalette_spec [['a'], ['b'], ['c']] 1).2.1 (by decide)]
  decide

lemma sixHex_isSome_iff (t : List Char) :
    (sixHex t).isSome = true ↔ t.length = 6 ∧ ∀ c ∈ t, isHexDigit c = true := by
  match t with
  | [] => simp [sixHex]
  | [a] => simp [sixHex]
  | [a, b] => simp [sixHex]
  | [a, b, c] => simp [sixHex]
  | [a, b, c, d] => simp [sixHex]
  | [a, b, c, d, e] => simp [sixHex]
  | [a, b, c, d, e, f] =>
    constructor
    · intro h
      refine ⟨by simp, ?_⟩
      by_cases hcond : (isHexDigit a && isHexDigit b && isHexDigit c &&
          isHexDigit d && isHexDigit e && isHexDigit f) = true
      · intro x hx
        simp only [Bool.and_eq_true] at hcond
        rcases List.mem_cons.mp hx with rfl | hx
        · exact hcond.1.1.1.1.1
        rcases List.mem_cons.mp hx with rfl | hx
        · exact hcond.1.1.1.1.2
        rcases List.mem_cons.mp hx with rfl | hx
        · exact hcond.1.1.1.2
        rcases List.mem_cons.mp hx with rfl | hx
        · exact hcond.1.1.2
        rcases List.mem_cons.mp hx with rfl | hx
        · exact hcond.1.2
        rcases List.mem_cons.mp hx with rfl | hx
        · exact hcond.2
        · simp at hx
      · rw [sixHex, if_neg hcond] at h
        simp at h
    · rintro ⟨-, hall⟩
      have hcond : (isHexDigit a && isHexDigit b && isHexDigit c &&
          isHexDigit d && isHexDigit e && isHexDigit f) = true := by
        simp only [Bool.and_eq_true]
        exact ⟨⟨⟨⟨⟨hall a (by simp), hall b (by simp)⟩, hall c (by simp)⟩,
          hall d (by simp)⟩, hall e (by simp)⟩, hall f (by simp)⟩
      rw [sixHex, if_pos hcond]
      rfl
  | a :: b :: c :: d :: e :: f :: g :: rest =>
    constructor
    · intro h
      exact absurd h (by simp [sixHex])
    · rintro ⟨h, -⟩
      exfalso
      simp only [List.length_cons] at h
      omega

/-- C8: hex parsing succeeds exactly on an optional `#` followed by exactly 6
hex digits (case-insensitive); on every other input it returns no value. -/
theorem hexToRgb_isSome_iff (s : List Char) :
    (hexToRgb s).isSome = true ↔ validHexString s := by
  rw [hexToRgb]
  match s with
  | [] =>
    rw [show stripHash [] = [] from rfl, sixHex_isSome_iff]
    constructor
    · rintro ⟨h, -⟩; simp at h
    · rintro ⟨t, ht | ht, hlen, -⟩
      · exact absurd ht (by simp)
      · subst ht; simp at hlen
  | c :: rest =>
    by_cases hc : c = '#'
    · subst hc
      rw [show stripHash ('#' :: rest) = rest from rfl, sixHex_isSome_iff]
      constructor
      · rintro ⟨hlen, hall⟩
        exact ⟨rest, Or.inl rfl, hlen, hall⟩
      · rintro ⟨t, ht | ht, hlen, hall⟩
        · injection ht with h1 h2
          subst h2
          exact ⟨hlen, hall⟩
        · exfalso
          have hmem : '#' ∈ t := ht ▸ List.mem_cons_self '#' rest
          have := hall '#' hmem
          simp [isHexDigit] at this
    · rw [show stripHash (c :: rest) = c :: rest from by
          simp [stripHash, hc], sixHex_isSome_iff]
      constructor
      · rintro ⟨hlen, hall⟩
        exact ⟨c :: rest, Or.inr rfl, hlen, hall⟩
      · rintro ⟨t, ht | ht, hlen, hall⟩
        · injection ht with h1 h2
          exact absurd h1 hc
        · subst ht; exact ⟨hlen, hall⟩

/-- C5 counterexample: at `alpha = 2` (the claim quantifies over every alpha and
explicitly over every `alpha ≥ 1`), the code returns the foreground verbatim,
while the claimed clamped-round formula gives 255 per channel. -/
theorem blendColors_ne_specBlend_at_two :
    blendColors ⟨100, 100, 100⟩ ⟨200, 200, 200⟩ 2 ≠
      specBlendColors ⟨100, 100, 100⟩ ⟨200, 200, 200⟩ 2 := by
  have hcode : blendColors ⟨100, 100, 100⟩ ⟨200, 200, 200⟩ 2 = ⟨200, 200, 200⟩ := by
    rw [blendColors, if_pos (by norm_num)]
  have hval : (((100 : ℤ) : ℚ)) * (1 - 2) + (((200 : ℤ) : ℚ)) * 2 = ((300 : ℤ) : ℚ) := by
    push_cast
    ring
  have hspec : specBlendColors ⟨100, 100, 100⟩ ⟨200, 200, 200⟩ 2 = ⟨255, 255, 255⟩ := by
    simp only [specBlendColors, clamp255, hval, round_intCast]
    simp only [RGB.mk.injEq]
    refine ⟨?_, ?_, ?_⟩ <;> omega
  rw [hcode, hspec]
  simp only [ne_eq, RGB.mk.injEq]
  omega

/-- C5 amended: for channels in `[0,255]` and `alpha ∈ [0,1]`, blending returns
per-channel `round(bg*(1-alpha) + fg*alpha)` (equal to the clamped form, the
clamp never engaging); for every `alpha ≥ 1` the result is exactly `fg`. -/
theorem blendColors_amended (bg fg : RGB) (alpha : ℚ)
    (hbg : inRange bg) (hfg : inRange fg) :
    (0 ≤ alpha → alpha ≤ 1 → blendColors bg fg alpha = specBlendColors bg fg alpha) ∧
    (1 ≤ alpha → blendColors bg fg alpha = fg) := by
  obtain ⟨hbr0, hbr1, hbg0, hbg1, hbb0, hbb1⟩ := hbg
  obtain ⟨hfr0, hfr1, hfg0, hfg1, hfb0, hfb1⟩ := hfg
  have key : ∀ cb cf : ℤ, 0 ≤ cb → cb ≤ 255 → 0 ≤ cf → cf ≤ 255 →
      0 ≤ alpha → alpha ≤ 1 →
      clamp255 (round ((cb : ℚ) * (1 - alpha) + (cf : ℚ) * alpha)) =
        round ((cb : ℚ) * (1 - alpha) + (cf : ℚ) * alpha) := by
    intro cb cf h1 h2 h3 h4 ha0 ha1
    have hb0 : (0 : ℚ) ≤ (cb : ℚ) := by exact_mod_cast h1
    have hf0 : (0 : ℚ) ≤ (cf : ℚ) := by exact_mod_cast h3
    have hb1 : (cb : ℚ) ≤ 255 := by exact_mod_cast h2
    have hf1 : (cf : ℚ) ≤ 255 := by exact_mod_cast h4
    have hx0 : (0 : ℚ) ≤ (cb : ℚ) * (1 - alpha) + (cf : ℚ) * alpha := by nlinarith
    have hx255 : (cb : ℚ) * (1 - alpha) + (cf : ℚ) * alpha ≤ 255 := by nlinarith
    obtain ⟨hl, hr⟩ := round_mem_range _ hx0 hx255
    rw [clamp255, max_eq_right hl, min_eq_right hr]
  constructor
  · intro ha0 ha1
    by_cases h1 : 1 ≤ alpha
    · have ha : alpha = 1 := le_antisymm ha1 h1
      subst ha
      rw [blendColors, if_pos le_rfl, specBlendColors]
      have hch : ∀ cb cf : ℤ, 0 ≤ cf → cf ≤ 255 →
          clamp255 (round ((cb : ℚ) * (1 - 1) + (cf : ℚ) * 1)) = cf := by
        intro cb cf h3 h4
        have hv : (cb : ℚ) * (1 - 1) + (cf : ℚ) * 1 = ((cf : ℤ) : ℚ) := by ring
        rw [hv, round_intCast, clamp255, max_eq_right h3, min_eq_right h4]
      rcases fg with ⟨fr, fgv, fb⟩
      simp only [RGB.mk.injEq]
      exact ⟨(hch _ _ hfr0 hfr1).symm, (hch _ _ hfg0 hfg1).symm,
        (hch _ _ hfb0 hfb1).symm⟩
    · rw [blendColors, if_neg h1, specBlendColors]
      simp only [RGB.mk.injEq]
      exact ⟨(key _ _ hbr0 hbr1 hfr0 hfr1 ha0 ha1).symm,
        (key _ _ hbg0 hbg1 hfg0 hfg1 ha0 ha1).symm,
        (key _ _ hbb0 hbb1 hfb0 hfb1 ha0 ha1).symm⟩
  · intro h1
    rw [blendColors, if_pos h1]

/-- C5 witness: at `alpha = 1` blending returns the foreground exactly. -/
theorem blendColors_amended_witness :
    inRange ⟨0, 0, 0⟩ ∧ inRange ⟨255, 255, 255⟩ ∧
      blendColors ⟨0, 0, 0⟩ ⟨255, 255, 255⟩ 1 = ⟨255, 255, 255⟩ :=
  ⟨by decide, by decide,
    (blendColors_amended ⟨0, 0, 0⟩ ⟨255, 255, 255⟩ 1 (by decide) (by decide)).2
      (by decide)⟩

lemma fdiv_floor_eq (x : ℚ) : Int.fdiv ⌊x⌋ 256 = ⌊x / 256⌋ := by
  rw [Int.fdiv_eq_ediv _ (by norm_num)]
  apply le_antisymm
  · apply Int.le_floor.mpr
    have h1 : (⌊x⌋ / 256) * 256 ≤ ⌊x⌋ := Int.ediv_mul_le ⌊x⌋ (by norm_num)
    have h2 : (((⌊x⌋ / 256) * 256 : ℤ) : ℚ) ≤ x := le_trans (by exact_mod_cast h1) (Int.floor_le x)
    rw [le_div_iff₀ (by norm_num : (0 : ℚ) < 256)]
    push_cast at h2 ⊢
    linarith
  · have h3 : ((⌊x / 256⌋ : ℤ) : ℚ) * 256 ≤ x := by
      have h4 := Int.floor_le (x / 256)
      calc ((⌊x / 256⌋ : ℤ) : ℚ) * 256 ≤ (x / 256) * 256 :=
            mul_le_mul_of_nonneg_right h4 (by norm_num)
        _ = x := by field_simp
    have h5 : ⌊x / 256⌋ * 256 ≤ ⌊x⌋ := Int.le_floor.mpr (by push_cast; linarith)
    exact Int.le_ediv_iff_mul_le (by norm_num) |>.mpr h5

/-- C2 amended: the distance equals the spec's redmean formula with each of the
two weighted endpoint terms floored to an integer (the effect of the `>> 8`
shifts); the green term is exact. -/
theorem getColorDistance_amended (c1 c2 : RGB) :
    getColorDistance c1 c2 =
      Real.sqrt
        (((⌊(512 + ((c1.r : ℚ) + (c2.r : ℚ)) / 2) / 256 *
             (((c1.r : ℚ) - (c2.r : ℚ)) * ((c1.r : ℚ) - (c2.r : ℚ)))⌋ +
           4 * ((c1.g - c2.g) * (c1.g - c2.g)) +
           ⌊(767 - ((c1.r : ℚ) + (c2.r : ℚ)) / 2) / 256 *
             (((c1.b : ℚ) - (c2.b : ℚ)) * ((c1.b : ℚ) - (c2.b : ℚ)))⌋ : ℤ) : ℝ)) := by
  rw [getColorDistance]
  congr 2
  simp only [distSq]
  have h1 : Int.fdiv ⌊(512 + ((c1.r : ℚ) + (c2.r : ℚ)) / 2) *
      (((c1.r : ℚ) - (c2.r : ℚ)) * ((c1.r : ℚ) - (c2.r : ℚ)))⌋ 256 =
      ⌊(512 + ((c1.r : ℚ) + (c2.r : ℚ)) / 2) / 256 *
        (((c1.r : ℚ) - (c2.r : ℚ)) * ((c1.r : ℚ) - (c2.r : ℚ)))⌋ := by
    rw [fdiv_floor_eq]
    congr 1
    ring
  have h2 : Int.fdiv ⌊(767 - ((c1.r : ℚ) + (c2.r : ℚ)) / 2) *
      (((c1.b : ℚ) - (c2.b : ℚ)) * ((c1.b : ℚ) - (c2.b : ℚ)))⌋ 256 =
      ⌊(767 - ((c1.r : ℚ) + (c2.r : ℚ)) / 2) / 256 *
        (((c1.b : ℚ) - (c2.b : ℚ)) * ((c1.b : ℚ) - (c2.b : ℚ)))⌋ := by
    rw [fdiv_floor_eq]
    congr 1
    ring
  rw [h1, h2]

/-- C2 counterexample: at `c1 = (1,0,0)`, `c2 = (0,0,0)` the code computes
`sqrt(((512.5 * 1) >> 8)) = sqrt 2`, while the exact real formula gives
`sqrt(512.5 / 256) = sqrt(1025/512)`; the two differ. -/
theorem getColorDistance_ne_spec :
    getColorDistance ⟨1, 0, 0⟩ ⟨0, 0, 0⟩ ≠ specColorDistance ⟨1, 0, 0⟩ ⟨0, 0, 0⟩ := by
  have h1 : distSq ⟨1, 0, 0⟩ ⟨0, 0, 0⟩ = 2 := by
    simp only [distSq]
    norm_num
    decide
  have h2 : specColorDistance ⟨1, 0, 0⟩ ⟨0, 0, 0⟩ = Real.sqrt (1025 / 512) := by
    simp only [specColorDistance]
    norm_num
  rw [getColorDistance, h1, h2]
  intro heq
  have h3 := (Real.sqrt_inj (by norm_num) (by norm_num)).mp heq
  norm_num at h3

lemma distSq_comm (a b : RGB) : distSq a b = distSq b a := by
  simp only [distSq]
  have h1 : ⌊(512 + ((a.r : ℚ) + (b.r : ℚ)) / 2) *
        (((a.r : ℚ) - (b.r : ℚ)) * ((a.r : ℚ) - (b.r : ℚ)))⌋ =
      ⌊(512 + ((b.r : ℚ) + (a.r : ℚ)) / 2) *
        (((b.r : ℚ) - (a.r : ℚ)) * ((b.r : ℚ) - (a.r : ℚ)))⌋ := by
    congr 1
    ring
  have h2 : 4 * ((a.g - b.g) * (a.g - b.g)) = 4 * ((b.g - a.g) * (b.g - a.g)) := by
    ring
  have h3 : ⌊(767 - ((a.r : ℚ) + (b.r : ℚ)) / 2) *
        (((a.b : ℚ) - (b.b : ℚ)) * ((a.b : ℚ) - (b.b : ℚ)))⌋ =
      ⌊(767 - ((b.r : ℚ) + (a.r : ℚ)) / 2) *
        (((b.b : ℚ) - (a.b : ℚ)) * ((b.b : ℚ) - (a.b : ℚ)))⌋ := by
    congr 1
    ring
  rw [h1, h2, h3]

lemma distSq_self (a : RGB) : distSq a a = 0 := by
  simp only [distSq, sub_self, zero_mul, mul_zero, Int.floor_zero]
  decide

lemma distSq_nonpos_iff (a b : RGB) (ha : inRange a) (hb : inRange b) :
    distSq a b ≤ 0 ↔ a.r = b.r ∧ a.g = b.g ∧ a.b = b.b := by
  obtain ⟨har0, har1, hag0, hag1, hab0, hab1⟩ := ha
  obtain ⟨hbr0, hbr1, hbg0, hbg1, hbb0, hbb1⟩ := hb
  have hqar0 : (0 : ℚ) ≤ (a.r : ℚ) := by exact_mod_cast har0
  have hqbr0 : (0 : ℚ) ≤ (b.r : ℚ) := by exact_mod_cast hbr0
  have hqar1 : (a.r : ℚ) ≤ 255 := by exact_mod_cast har1
  have hqbr1 : (b.r : ℚ) ≤ 255 := by exact_mod_cast hbr1
  simp only [distSq]
  constructor
  · intro h
    have hT1 : 0 ≤ Int.fdiv ⌊(512 + ((a.r : ℚ) + (b.r : ℚ)) / 2) *
        (((a.r : ℚ) - (b.r : ℚ)) * ((a.r : ℚ) - (b.r : ℚ)))⌋ 256 := by
      apply Int.fdiv_nonneg _ (by norm_num)
      apply Int.le_floor.mpr
      push_cast
      nlinarith [mul_self_nonneg ((a.r : ℚ) - (b.r : ℚ))]
    have hT2 : 0 ≤ 4 * ((a.g - b.g) * (a.g - b.g)) := by
      nlinarith [mul_self_nonneg (a.g - b.g)]
    have hT3 : 0 ≤ Int.fdiv ⌊(767 - ((a.r : ℚ) + (b.r : ℚ)) / 2) *
        (((a.b : ℚ) - (b.b : ℚ)) * ((a.b : ℚ) - (b.b : ℚ)))⌋ 256 := by
      apply Int.fdiv_nonneg _ (by norm_num)
      apply Int.le_floor.mpr
      push_cast
      nlinarith [mul_self_nonneg ((a.b : ℚ) - (b.b : ℚ))]
    have h512 : (512 : ℤ) / 256 = 2 := by decide
    refine ⟨?_, ?_, ?_⟩
    · by_contra hne
      have h1 : (1 : ℤ) ≤ (a.r - b.r) * (a.r - b.r) := by
        have habs := Int.one_le_abs (sub_ne_zero.mpr hne)
        nlinarith [abs_mul_abs_self (a.r - b.r), abs_nonneg (a.r - b.r)]
      have hq2 : (1 : ℚ) ≤ ((a.r : ℚ) - (b.r : ℚ)) * ((a.r : ℚ) - (b.r : ℚ)) := by
        exact_mod_cast h1
      have harg : (512 : ℚ) ≤ (512 + ((a.r : ℚ) + (b.r : ℚ)) / 2) *
          (((a.r : ℚ) - (b.r : ℚ)) * ((a.r : ℚ) - (b.r : ℚ))) := by
        nlinarith [hq2, hqar0, hqbr0]
      have hfl : (512 : ℤ) ≤ ⌊(512 + ((a.r : ℚ) + (b.r : ℚ)) / 2) *
          (((a.r : ℚ) - (b.r : ℚ)) * ((a.r : ℚ) - (b.r : ℚ)))⌋ :=
        Int.le_floor.mpr (by push_cast; linarith)
      have hbig : (2 : ℤ) ≤ Int.fdiv ⌊(512 + ((a.r : ℚ) + (b.r : ℚ)) / 2) *
          (((a.r : ℚ) - (b.r : ℚ)) * ((a.r : ℚ) - (b.r : ℚ)))⌋ 256 := by
        rw [Int.fdiv_eq_ediv _ (by norm_num), ← h512]
        exact Int.ediv_le_ediv (by norm_num) hfl
      omega
    · by_contra hne
      have h1 : (1 : ℤ) ≤ (a.g - b.g) * (a.g - b.g) := by
        have habs := Int.one_le_abs (sub_ne_zero.mpr hne)
        nlinarith [abs_mul_abs_self (a.g - b.g), abs_nonneg (a.g - b.g)]
      omega
    · by_contra hne
      have h1 : (1 : ℤ) ≤ (a.b - b.b) * (a.b - b.b) := by
        have habs := Int.one_le_abs (sub_ne_zero.mpr hne)
        nlinarith [abs_mul_abs_self (a.b - b.b), abs_nonneg (a.b - b.b)]
      have hq2 : (1 : ℚ) ≤ ((a.b : ℚ) - (b.b : ℚ)) * ((a.b : ℚ) - (b.b : ℚ)) := by
        exact_mod_cast h1
      have harg : (512 : ℚ) ≤ (767 - ((a.r : ℚ) + (b.r : ℚ)) / 2) *
          (((a.b : ℚ) - (b.b : ℚ)) * ((a.b : ℚ) - (b.b : ℚ))) := by
        nlinarith [hq2, hqar1, hqbr1]
      have hfl : (512 : ℤ) ≤ ⌊(767 - ((a.r : ℚ) + (b.r : ℚ)) / 2) *
          (((a.b : ℚ) - (b.b : ℚ)) * ((a.b : ℚ) - (b.b : ℚ)))⌋ :=
        Int.le_floor.mpr (by push_cast; linarith)
      have hbig : (2 : ℤ) ≤ Int.fdiv ⌊(767 - ((a.r : ℚ) + (b.r : ℚ)) / 2) *
          (((a.b : ℚ) - (b.b : ℚ)) * ((a.b : ℚ) - (b.b : ℚ)))⌋ 256 := by
        rw [Int.fdiv_eq_ediv _ (by norm_num), ← h512]
        exact Int.ediv_le_ediv (by norm_num) hfl
      omega
  · rintro ⟨h1, h2, h3⟩
    simp only [h1, h2, h3, sub_self, zero_mul, mul_zero, Int.floor_zero]
    decide

/-- C7: the code's distance is zero on equal colors, symmetric, and (for 8-bit
in-range channels) zero exactly when all three channels agree. -/
theorem getColorDistance_metric (a b : RGB) :
    getColorDistance a a = 0 ∧
    getColorDistance a b = getColorDistance b a ∧
    (inRange a → inRange b →
      (getColorDistance a b = 0 ↔ a.r = b.r ∧ a.g = b.g ∧ a.b = b.b)) := by
  refine ⟨?_, ?_, fun ha hb => ?_⟩
  · rw [getColorDistance, distSq_self]
    simp [Real.sqrt_zero]
  · rw [getColorDistance, getColorDistance, distSq_comm]
  · rw [getColorDistance, Real.sqrt_eq_zero', Int.cast_nonpos]
    exact distSq_nonpos_iff a b ha hb

/-- C7 witness: concrete in-range colors differing only in the blue channel. -/
theorem getColorDistance_metric_witness :
    inRange ⟨10, 20, 30⟩ ∧ inRange ⟨10, 20, 31⟩ ∧
      (getColorDistance ⟨10, 20, 30⟩ ⟨10, 20, 31⟩ = 0 ↔
        (10 : ℤ) = 10 ∧ (20 : ℤ) = 20 ∧ (30 : ℤ) = 31) :=
  ⟨by decide, by decide,
    (getColorDistance_metric ⟨10, 20, 30⟩ ⟨10, 20, 31⟩).2.2 (by decide) (by decide)⟩

lemma paintCell_cases (rows cols : ℕ) (paintRgb : RGB) (alpha : ℚ)
    (st : List (List Pixel) × Bool) (t : ℤ × ℤ) :
    paintCell rows cols paintRgb alpha st t = st ∨
    ∃ row currentPixel,
      (0 ≤ t.1 ∧ t.1 < (rows : ℤ) ∧ 0 ≤ t.2 ∧ t.2 < (cols : ℤ)) ∧
      st.1[t.1.toNat]? = some row ∧ row[t.2.toNat]? = some currentPixel ∧
      currentPixel.hex ≠ (blendedPixel paintRgb alpha currentPixel).hex ∧
      paintCell rows cols paintRgb alpha st t =
        (st.1.set t.1.toNat
          (row.set t.2.toNat (blendedPixel paintRgb alpha currentPixel)), true) := by
  rw [paintCell]
  split
  case isTrue hb =>
    split
    next hrow => exact Or.inl rfl
    next row hrow =>
      split
      next hcell => exact Or.inl rfl
      next px hcell =>
        split
        next hhex => exact Or.inr ⟨row, px, hb, hrow, hcell, hhex, rfl⟩
        next hhex => exact Or.inl rfl
  case isFalse hb => exact Or.inl rfl

lemma paintCell_length (rows cols : ℕ) (paintRgb : RGB) (alpha : ℚ)
    (st : List (List Pixel) × Bool) (t : ℤ × ℤ) :
    (paintCell rows cols paintRgb alpha st t).1.length = st.1.length ∧
    ∀ i : ℕ, (((paintCell rows cols paintRgb alpha st t).1[i]?).map List.length) =
      ((st.1[i]?).map List.length) := by
  rcases paintCell_cases rows cols paintRgb alpha st t with h | ⟨row, px, hb, hrow, hcell, hhex, h⟩
  · rw [h]
    exact ⟨rfl, fun i => rfl⟩
  · rw [h]
    refine ⟨List.length_set _ _ _, fun i => ?_⟩
    by_cases hi : t.1.toNat = i
    · subst hi
      rw [List.getElem?_set_self', hrow]
      simp [List.length_set]
    · rw [List.getElem?_set_ne hi]

lemma paintCell_cellAt_ne (rows cols : ℕ) (paintRgb : RGB) (alpha : ℚ)
    (st : List (List Pixel) × Bool) (t : ℤ × ℤ) (y x : ℕ)
    (hne : ¬((0 ≤ t.1 ∧ t.1 < (rows : ℤ) ∧ 0 ≤ t.2 ∧ t.2 < (cols : ℤ)) ∧
      t.1.toNat = y ∧ t.2.toNat = x)) :
    cellAt (paintCell rows cols paintRgb alpha st t).1 y x = cellAt st.1 y x := by
  rcases paintCell_cases rows cols paintRgb alpha st t with h | ⟨row, px, hb, hrow, hcell, hhex, h⟩
  · rw [h]
  · rw [h, cellAt, cellAt]
    by_cases hy : t.1.toNat = y
    · subst hy
      have hx : t.2.toNat ≠ x := fun hx => hne ⟨hb, rfl, hx⟩
      rw [List.getElem?_set_self', hrow]
      simp [List.getElem?_set_ne hx]
    · rw [List.getElem?_set_ne hy]

lemma paintCell_cellAt_noop (rows cols : ℕ) (paintRgb : RGB) (alpha : ℚ)
    (st : List (List Pixel) × Bool) (t : ℤ × ℤ) (y x : ℕ) (px : Pixel)
    (hcell : cellAt st.1 y x = some px)
    (hhex : px.hex = (blendedPixel paintRgb alpha px).hex) :
    cellAt (paintCell rows cols paintRgb alpha st t).1 y x = some px := by
  by_cases hyx : (0 ≤ t.1 ∧ t.1 < (rows : ℤ) ∧ 0 ≤ t.2 ∧ t.2 < (cols : ℤ)) ∧
      t.1.toNat = y ∧ t.2.toNat = x
  · rcases paintCell_cases rows cols paintRgb alpha st t with h | ⟨row, cpx, hb, hrow, hcellt, hhex2, h⟩
    · rw [h]
      exact hcell
    · exfalso
      obtain ⟨-, h1, h2⟩ := hyx
      subst h1
      subst h2
      rw [cellAt, hrow] at hcell
      simp only [Option.some_bind] at hcell
      rw [hcellt] at hcell
      injection hcell with hpx
      subst hpx
      exact hhex2 hhex
  · rw [paintCell_cellAt_ne rows cols paintRgb alpha st t y x hyx]
    exact hcell

lemma paintCell_noop_eq (rows cols : ℕ) (paintRgb : RGB) (alpha : ℚ)
    (st : List (List Pixel) × Bool) (t : ℤ × ℤ)
    (hno : (0 ≤ t.1 ∧ t.1 < (rows : ℤ) ∧ 0 ≤ t.2 ∧ t.2 < (cols : ℤ)) →
      ∀ px, cellAt st.1 t.1.toNat t.2.toNat = some px →
        px.hex = (blendedPixel paintRgb alpha px).hex) :
    paintCell rows cols paintRgb alpha st t = st := by
  rcases paintCell_cases rows cols paintRgb alpha st t with h | ⟨row, cpx, hb, hrow, hcellt, hhex2, h⟩
  · exact h
  · exfalso
    apply hhex2
    apply hno hb cpx
    rw [cellAt, hrow]
    simp only [Option.some_bind]
    exact hcellt

lemma foldl_paintCell_length (rows cols : ℕ) (paintRgb : RGB) (alpha : ℚ) :
    ∀ (L : List (ℤ × ℤ)) (st : List (List Pixel) × Bool),
      ((L.foldl (paintCell rows cols paintRgb alpha) st).1.length = st.1.length) ∧
      ∀ i : ℕ, (((L.foldl (paintCell rows cols paintRgb alpha) st).1[i]?).map List.length) =
        ((st.1[i]?).map List.length) := by
  intro L
  induction L with
  | nil => exact fun st => ⟨rfl, fun i => rfl⟩
  | cons t L ih =>
    intro st
    rw [List.foldl_cons]
    refine ⟨?_, fun i => ?_⟩
    · rw [(ih _).1, (paintCell_length rows cols paintRgb alpha st t).1]
    · rw [(ih _).2 i, (paintCell_length rows cols paintRgb alpha st t).2 i]

lemma foldl_paintCell_frame (rows cols : ℕ) (paintRgb : RGB) (alpha : ℚ) (y x : ℕ) :
    ∀ (L : List (ℤ × ℤ)) (st : List (List Pixel) × Bool),
      (∀ t ∈ L, ¬((0 ≤ t.1 ∧ t.1 < (rows : ℤ) ∧ 0 ≤ t.2 ∧ t.2 < (cols : ℤ)) ∧
        t.1.toNat = y ∧ t.2.toNat = x)) →
      cellAt ((L.foldl (paintCell rows cols paintRgb alpha) st).1) y x = cellAt st.1 y x := by
  intro L
  induction L with
  | nil => exact fun st _ => rfl
  | cons t L ih =>
    intro st hall
    rw [List.foldl_cons, ih _ (fun u hu => hall u (List.mem_cons_of_mem t hu)),
      paintCell_cellAt_ne rows cols paintRgb alpha st t y x (hall t (List.mem_cons_self t L))]

lemma foldl_paintCell_noop_cell (rows cols : ℕ) (paintRgb : RGB) (alpha : ℚ)
    (y x : ℕ) (px : Pixel) (hhex : px.hex = (blendedPixel paintRgb alpha px).hex) :
    ∀ (L : List (ℤ × ℤ)) (st : List (List Pixel) × Bool),
      cellAt st.1 y x = some px →
      cellAt ((L.foldl (paintCell rows cols paintRgb alpha) st).1) y x = some px := by
  intro L
  induction L with
  | nil => exact fun st h => h
  | cons t L ih =>
    intro st hcell
    rw [List.foldl_cons]
    exact ih _ (paintCell_cellAt_noop rows cols paintRgb alpha st t y x px hcell hhex)

lemma foldl_paintCell_noop_eq (rows cols : ℕ) (paintRgb : RGB) (alpha : ℚ) :
    ∀ (L : List (ℤ × ℤ)) (st : List (List Pixel) × Bool),
      (∀ t ∈ L, (0 ≤ t.1 ∧ t.1 < (rows : ℤ) ∧ 0 ≤ t.2 ∧ t.2 < (cols : ℤ)) →
        ∀ px, cellAt st.1 t.1.toNat t.2.toNat = some px →
          px.hex = (blendedPixel paintRgb alpha px).hex) →
      L.foldl (paintCell rows cols paintRgb alpha) st = st := by
  intro L
  induction L with
  | nil => exact fun st _ => rfl
  | cons t L ih =>
    intro st hall
    rw [List.foldl_cons,
      paintCell_noop_eq rows cols paintRgb alpha st t (hall t (List.mem_cons_self t L))]
    exact ih st (fun u hu => hall u (List.mem_cons_of_mem t hu))

lemma nested_foldl_eq_flat {σ : Type} (f : σ → ℤ × ℤ → σ) (g : ℕ → ℕ → ℤ × ℤ)
    (inner : List ℕ) :
    ∀ (outer : List ℕ) (init : σ),
      outer.foldl (fun st dy => inner.foldl (fun st dx => f st (g dy dx)) st) init =
        (outer.flatMap (fun dy => inner.map (g dy))).foldl f init := by
  intro outer
  induction outer with
  | nil => exact fun init => rfl
  | cons a l ih =>
    intro init
    rw [List.foldl_cons, List.flatMap_cons, List.foldl_append, ih, List.foldl_map]

lemma mem_brushTargets {t : ℤ × ℤ} {mouseY mouseX : ℤ} {brushSize : ℕ} :
    t ∈ brushTargets mouseY mouseX brushSize ↔
      ∃ dy ∈ List.range brushSize, ∃ dx ∈ List.range brushSize,
        t = (mouseY - ((brushSize / 2 : ℕ) : ℤ) + (dy : ℤ),
             mouseX - ((brushSize / 2 : ℕ) : ℤ) + (dx : ℤ)) := by
  rw [brushTargets]
  constructor
  · intro ht
    obtain ⟨dy, hdy, hmem⟩ := List.mem_flatMap.mp ht
    obtain ⟨dx, hdx, heq⟩ := List.mem_map.mp hmem
    exact ⟨dy, hdy, dx, hdx, heq.symm⟩
  · rintro ⟨dy, hdy, dx, hdx, rfl⟩
    exact List.mem_flatMap.mpr ⟨dy, hdy, List.mem_map.mpr ⟨dx, hdx, rfl⟩⟩

lemma handleDraw_cases (grid : List (List Pixel)) (rows cols : ℕ)
    (activeTool : ToolType) (mouseY mouseX : ℤ) (brushColor : List Char)
    (brushSize : ℕ) (brushOpacity : ℚ) :
    handleDraw grid rows cols activeTool mouseY mouseX brushColor brushSize brushOpacity =
      grid ∨
    handleDraw grid rows cols activeTool mouseY mouseX brushColor brushSize brushOpacity =
      ((brushTargets mouseY mouseX brushSize).foldl
        (paintCell rows cols (paintRgbFor activeTool brushColor) brushOpacity)
        (grid, false)).1 := by
  simp only [handleDraw]
  split
  · exact Or.inl rfl
  split
  · exact Or.inl rfl
  split
  · exact Or.inl rfl
  rw [brushTargets, ← nested_foldl_eq_flat
    (paintCell rows cols (paintRgbFor activeTool brushColor) brushOpacity)
    (fun dy dx => (mouseY - ((brushSize / 2 : ℕ) : ℤ) + (dy : ℤ),
      mouseX - ((brushSize / 2 : ℕ) : ℤ) + (dx : ℤ)))
    (List.range brushSize) (List.range brushSize) (grid, false)]
  split
  · exact Or.inr rfl
  · exact Or.inl rfl

/-- C10: every paint application (any tool, brush size, opacity, pointer
position) preserves the grid's dimensions: same number of rows, and every row
keeps its length. -/
theorem handleDraw_preserves_dims (grid : List (List Pixel)) (rows cols : ℕ)
    (activeTool : ToolType) (mouseY mouseX : ℤ) (brushColor : List Char)
    (brushSize : ℕ) (brushOpacity : ℚ) :
    (handleDraw grid rows cols activeTool mouseY mouseX brushColor brushSize
        brushOpacity).length = grid.length ∧
    ∀ i : ℕ,
      (((handleDraw grid rows cols activeTool mouseY mouseX brushColor brushSize
          brushOpacity)[i]?).map List.length) = ((grid[i]?).map List.length) := by
  rcases handleDraw_cases grid rows cols activeTool mouseY mouseX brushColor brushSize
    brushOpacity with h | h
  · rw [h]
    exact ⟨rfl, fun i => rfl⟩
  · rw [h]
    exact foldl_paintCell_length rows cols (paintRgbFor activeTool brushColor)
      brushOpacity (brushTargets mouseY mouseX brushSize) (grid, false)

/-- C3 counterexample: brush size 3 centered at cell (1,1) of a 3×3 grid (0-based,
as the code indexes) has all 9 targets in bounds: painting white at full opacity
turns every one of the 9 cells white, not only 4 of them. -/
theorem handleDraw_center_touches_nine :
    handleDraw blackGrid3 3 3 ToolType.brush 1 1 ("#ffffff".toList) 3 1 = whiteGrid3 ∧
    ∀ y ∈ List.range 3, ∀ x ∈ List.range 3,
      cellAt whiteGrid3 y x ≠ cellAt blackGrid3 y x := by
  decide

/-- C3 amended: every cell outside the brush window is untouched (in particular
every out-of-grid target is skipped silently and touches nothing), and a size-3
paint centered at corner cell (0,0) of a 3×3 grid touches exactly the 4 valid
cells (0,0), (0,1), (1,0), (1,1). -/
theorem handleDraw_clipping_amended :
    (∀ (grid : List (List Pixel)) (rows cols : ℕ) (activeTool : ToolType)
        (mouseY mouseX : ℤ) (brushColor : List Char) (brushSize : ℕ)
        (brushOpacity : ℚ) (y x : ℕ),
       ¬ inWindow mouseY mouseX brushSize y x →
       cellAt (handleDraw grid rows cols activeTool mouseY mouseX brushColor
         brushSize brushOpacity) y x = cellAt grid y x) ∧
    handleDraw blackGrid3 3 3 ToolType.brush 0 0 ("#ffffff".toList) 3 1 = cornerGrid3 := by
  constructor
  · intro grid rows cols activeTool mouseY mouseX brushColor brushSize brushOpacity y x hniw
    rcases handleDraw_cases grid rows cols activeTool mouseY mouseX brushColor brushSize
      brushOpacity with h | h
    · rw [h]
    · rw [h]
      apply foldl_paintCell_frame
      intro t ht hcontra
      obtain ⟨hb, hy, hx⟩ := hcontra
      apply hniw
      rw [mem_brushTargets] at ht
      obtain ⟨dy, hdy, dx, hdx, rfl⟩ := ht
      refine ⟨dy, hdy, dx, hdx, ?_, ?_⟩
      · rw [← hy, Int.toNat_of_nonneg hb.1]
      · rw [← hx, Int.toNat_of_nonneg hb.2.2.1]
  · decide

/-- C3 witness: cell (2,2) lies outside the window of a size-3 paint at corner
(0,0) of the 3×3 grid, and is indeed left unchanged. -/
theorem handleDraw_clipping_amended_witness :
    ¬ inWindow 0 0 3 2 2 ∧
      cellAt (handleDraw blackGrid3 3 3 ToolType.brush 0 0 ("#ffffff".toList) 3 1) 2 2 =
        cellAt blackGrid3 2 2 :=
  ⟨by decide, handleDraw_clipping_amended.1 blackGrid3 3 3 ToolType.brush 0 0
    ("#ffffff".toList) 3 1 2 2 (by decide)⟩

/-- C6: a target cell whose blended hex equals its current hex keeps its exact
value, and when every in-bounds target of the application is such a no-op the
application returns the previous grid itself (the `changed ? newPixels : prev`
return), so a caller can detect that no visible change occurred. -/
theorem handleDraw_noop_spec (grid : List (List Pixel)) (rows cols : ℕ)
    (activeTool : ToolType) (mouseY mouseX : ℤ) (brushColor : List Char)
    (brushSize : ℕ) (brushOpacity : ℚ) :
    (∀ (y x : ℕ) (px : Pixel), cellAt grid y x = some px →
       px.hex = (blendedPixel (paintRgbFor activeTool brushColor) brushOpacity px).hex →
       cellAt (handleDraw grid rows cols activeTool mouseY mouseX brushColor brushSize
         brushOpacity) y x = some px) ∧
    ((∀ t ∈ brushTargets mouseY mouseX brushSize,
        (0 ≤ t.1 ∧ t.1 < (rows : ℤ) ∧ 0 ≤ t.2 ∧ t.2 < (cols : ℤ)) →
        ∀ px ∈ cellAt grid t.1.toNat t.2.toNat,
          px.hex = (blendedPixel (paintRgbFor activeTool brushColor) brushOpacity px).hex) →
      handleDraw grid rows cols activeTool mouseY mouseX brushColor brushSize
        brushOpacity = grid) := by
  constructor
  · intro y x px hcell hhex
    rcases handleDraw_cases grid rows cols activeTool mouseY mouseX brushColor brushSize
      brushOpacity with h | h
    · rw [h]
      exact hcell
    · rw [h]
      exact foldl_paintCell_noop_cell rows cols (paintRgbFor activeTool brushColor)
        brushOpacity y x px hhex (brushTargets mouseY mouseX brushSize) (grid, false) hcell
  · intro hall
    rcases handleDraw_cases grid rows cols activeTool mouseY mouseX brushColor brushSize
      brushOpacity with h | h
    · rw [h]
    · rw [h, foldl_paintCell_noop_eq rows cols (paintRgbFor activeTool brushColor)
        brushOpacity (brushTargets mouseY mouseX brushSize) (grid, false)
        (fun t ht hb px hpx => hall t ht hb px (Option.mem_def.mpr hpx))]

/-- C6 witness: painting white at full opacity over a 1×1 white grid is a no-op
on its only cell and returns the previous grid itself. -/
theorem handleDraw_noop_spec_witness :
    (cellAt [[whitePixel]] 0 0 = some whitePixel ∧
      whitePixel.hex = (blendedPixel (paintRgbFor ToolType.brush ("#ffffff".toList)) 1
        whitePixel).hex ∧
      cellAt (handleDraw [[whitePixel]] 1 1 ToolType.brush 0 0 ("#ffffff".toList) 1 1)
        0 0 = some whitePixel) ∧
    ((∀ t ∈ brushTargets 0 0 1,
        (0 ≤ t.1 ∧ t.1 < (1 : ℤ) ∧ 0 ≤ t.2 ∧ t.2 < (1 : ℤ)) →
        ∀ px ∈ cellAt [[whitePixel]] t.1.toNat t.2.toNat,
          px.hex = (blendedPixel (paintRgbFor ToolType.brush ("#ffffff".toList)) 1 px).hex) ∧
      handleDraw [[whitePixel]] 1 1 ToolType.brush 0 0 ("#ffffff".toList) 1 1 =
        [[whitePixel]]) :=
  ⟨⟨by decide, by decide,
      (handleDraw_noop_spec [[whitePixel]] 1 1 ToolType.brush 0 0 ("#ffffff".toList) 1 1).1
        0 0 whitePixel (by decide) (by decide)⟩,
    ⟨by decide,
      (handleDraw_noop_spec [[whitePixel]] 1 1 ToolType.brush 0 0 ("#ffffff".toList) 1 1).2
        (by decide)⟩⟩

lemma scanClosest_spec (c : RGB) : ∀ (l : List PaletteEntry) (m : EReal) (cl : PaletteEntry),
    (scanClosest c l m cl = cl ∧ ∀ p ∈ l, m ≤ ((entryDist c p : ℝ) : EReal)) ∨
    (∃ l1 res l2, l = l1 ++ res :: l2 ∧ scanClosest c l m cl = res ∧
      ((entryDist c res : ℝ) : EReal) < m ∧
      (∀ p ∈ l, entryDist c res ≤ entryDist c p) ∧
      (∀ p ∈ l1, entryDist c res < entryDist c p)) := by
  intro l
  induction l with
  | nil =>
    intro m cl
    exact Or.inl ⟨rfl, by simp⟩
  | cons p rest ih =>
    intro m cl
    by_cases hlt : ((entryDist c p : ℝ) : EReal) < m
    · rw [scanClosest, if_pos hlt]
      rcases ih ((entryDist c p : ℝ) : EReal) p with ⟨heq, hall⟩ |
        ⟨l1, res, l2, hsplit, heq, hlt2, hall, hstrict⟩
      · refine Or.inr ⟨[], p, rest, rfl, heq, hlt, ?_, by simp⟩
        intro q hq
        rcases List.mem_cons.mp hq with rfl | hq
        · exact le_refl _
        · exact EReal.coe_le_coe_iff.mp (hall q hq)
      · refine Or.inr ⟨p :: l1, res, l2, by simp [hsplit], heq,
          lt_trans hlt2 hlt, ?_, ?_⟩
        · intro q hq
          rcases List.mem_cons.mp hq with rfl | hq
          · exact le_of_lt (EReal.coe_lt_coe_iff.mp hlt2)
          · exact hall q hq
        · intro q hq
          rcases List.mem_cons.mp hq with rfl | hq
          · exact EReal.coe_lt_coe_iff.mp hlt2
          · exact hstrict q hq
    · rw [scanClosest, if_neg hlt]
      have hge : m ≤ ((entryDist c p : ℝ) : EReal) := not_lt.mp hlt
      rcases ih m cl with ⟨heq, hall⟩ | ⟨l1, res, l2, hsplit, heq, hlt2, hall, hstrict⟩
      · refine Or.inl ⟨heq, ?_⟩
        intro q hq
        rcases List.mem_cons.mp hq with rfl | hq
        · exact hge
        · exact hall q hq
      · refine Or.inr ⟨p :: l1, res, l2, by simp [hsplit], heq, hlt2, ?_, ?_⟩
        · intro q hq
          rcases List.mem_cons.mp hq with rfl | hq
          · exact le_of_lt (EReal.coe_lt_coe_iff.mp (lt_of_lt_of_le hlt2 hge))
          · exact hall q hq
        · intro q hq
          rcases List.mem_cons.mp hq with rfl | hq
          · exact EReal.coe_lt_coe_iff.mp (lt_of_lt_of_le hlt2 hge)
          · exact hstrict q hq

/-- C4: for every non-empty palette and sampled color the mapper returns the
entry at the first position attaining the minimal redmean distance (strict `<`
comparison: every strictly earlier entry has strictly greater distance); in
particular, for a two-entry palette and a color equidistant from both entries,
the first entry is selected. -/
theorem findClosest_first_argmin (c : RGB) :
    (∀ pal : List PaletteEntry, pal ≠ [] →
      ∃ l1 res l2, pal = l1 ++ res :: l2 ∧ findClosest c pal = some res ∧
        (∀ p ∈ pal, entryDist c res ≤ entryDist c p) ∧
        (∀ p ∈ l1, entryDist c res < entryDist c p)) ∧
    (∀ e0 e1 : PaletteEntry, entryDist c e0 = entryDist c e1 →
      findClosest c [e0, e1] = some e0) := by
  have main : ∀ (p : PaletteEntry) (rest : List PaletteEntry),
      ∃ l1 res l2, p :: rest = l1 ++ res :: l2 ∧
        findClosest c (p :: rest) = some res ∧
        (∀ q ∈ p :: rest, entryDist c res ≤ entryDist c q) ∧
        (∀ q ∈ l1, entryDist c res < entryDist c q) := by
    intro p rest
    rcases scanClosest_spec c (p :: rest) ⊤ p with ⟨heq, hall⟩ |
      ⟨l1, res, l2, hsplit, heq, hlt, hall, hstrict⟩
    · exfalso
      exact absurd (hall p (List.mem_cons_self p rest))
        (not_le.mpr (EReal.coe_lt_top _))
    · exact ⟨l1, res, l2, hsplit, congrArg some heq, hall, hstrict⟩
  constructor
  · intro pal hne
    rcases pal with _ | ⟨p, rest⟩
    · exact absurd rfl hne
    · exact main p rest
  · intro e0 e1 hdist
    obtain ⟨l1, res, l2, hsplit, hfind, hall, hstrict⟩ := main e0 [e1]
    rcases l1 with _ | ⟨a, l1'⟩
    · injection hsplit with h1 h2
      rw [hfind, h1]
    · rcases l1' with _ | ⟨b, l1''⟩
      · injection hsplit with h1 h2
        injection h2 with h3 h4
        subst h1
        subst h3
        exfalso
        have := hstrict e0 (List.mem_cons_self e0 [])
        rw [hdist] at this
        exact lt_irrefl _ this
      · injection hsplit with h1 h2
        injection h2 with h3 h4
        exact absurd h4 (by simp)

/-- C4 witness: a non-empty two-entry palette, and a tie between two entries
with identical channels (hence identical distance from any color): the first
entry wins. -/
theorem findClosest_first_argmin_witness :
    (([⟨rgbToHex 0 0 0, 0, 0, 0⟩, ⟨rgbToHex 0 0 1, 0, 0, 1⟩] : List PaletteEntry) ≠ [] ∧
      ∃ l1 res l2,
        ([⟨rgbToHex 0 0 0, 0, 0, 0⟩, ⟨rgbToHex 0 0 1, 0, 0, 1⟩] : List PaletteEntry) =
          l1 ++ res :: l2 ∧
        findClosest ⟨0, 0, 0⟩ [⟨rgbToHex 0 0 0, 0, 0, 0⟩, ⟨rgbToHex 0 0 1, 0, 0, 1⟩] =
          some res ∧
        (∀ p ∈ ([⟨rgbToHex 0 0 0, 0, 0, 0⟩, ⟨rgbToHex 0 0 1, 0, 0, 1⟩] : List PaletteEntry),
          entryDist ⟨0, 0, 0⟩ res ≤ entryDist ⟨0, 0, 0⟩ p) ∧
        (∀ p ∈ l1, entryDist ⟨0, 0, 0⟩ res < entryDist ⟨0, 0, 0⟩ p)) ∧
    (entryDist ⟨7, 7, 7⟩ ⟨rgbToHex 5 5 5, 5, 5, 5⟩ =
        entryDist ⟨7, 7, 7⟩ ⟨['x'], 5, 5, 5⟩ ∧
      findClosest ⟨7, 7, 7⟩ [⟨rgbToHex 5 5 5, 5, 5, 5⟩, ⟨['x'], 5, 5, 5⟩] =
        some ⟨rgbToHex 5 5 5, 5, 5, 5⟩) :=
  ⟨⟨by decide, (findClosest_first_argmin ⟨0, 0, 0⟩).1 _ (by decide)⟩,
   ⟨rfl, (findClosest_first_argmin ⟨7, 7, 7⟩).2 _ _ rfl⟩⟩

lemma mergeSort_replicate (n : ℕ) (c : RGB) (le : RGB → RGB → Bool) :
    (List.replicate n c).mergeSort le = List.replicate n c := by
  have hperm := List.mergeSort_perm (List.replicate n c) le
  refine List.eq_replicate_iff.mpr ⟨?_, ?_⟩
  · rw [hperm.length_eq, List.length_replicate]
  · intro b hb
    exact (List.mem_replicate.mp (hperm.mem_iff.mp hb)).2

lemma foldl_add_replicate (n : ℕ) (f : RGB → ℤ) (c : RGB) :
    ∀ init : ℤ, (List.replicate n c).foldl (fun a p => a + f p) init =
      init + n * f c := by
  induction n with
  | zero => intro init; simp
  | succ m ih =>
    intro init
    rw [List.replicate_succ, List.foldl_cons, ih]
    push_cast
    ring

lemma meanPixel_replicate (c : RGB) (n : ℕ) (hn : n ≠ 0) :
    meanPixel (List.replicate n c) = some c := by
  rw [meanPixel, if_neg (by simp [hn])]
  have hch : ∀ f : RGB → ℤ,
      round ((((List.replicate n c).foldl (fun a p => a + f p) 0 : ℤ) : ℚ) /
        (((List.replicate n c).length : ℕ) : ℚ)) = f c := by
    intro f
    rw [foldl_add_replicate, List.length_replicate]
    have hv : (((0 : ℤ) + n * f c : ℤ) : ℚ) / ((n : ℕ) : ℚ) = ((f c : ℤ) : ℚ) := by
      have hn0 : ((n : ℕ) : ℚ) ≠ 0 := by exact_mod_cast hn
      field_simp
    rw [hv, round_intCast]
  have hr := hch (fun p => p.r)
  have hg := hch (fun p => p.g)
  have hb := hch (fun p => p.b)
  simp only at hr hg hb
  rw [hr, hg, hb]

lemma medianCut_replicate (c : RGB) : ∀ (d n : ℕ), 2 ^ d ≤ n →
    medianCutQuantization (List.replicate n c) d =
      List.replicate (2 ^ d) (some c) := by
  intro d
  induction d with
  | zero =>
    intro n hn
    rw [pow_zero] at hn
    simp only [medianCutQuantization]
    rw [meanPixel_replicate c n (by omega), pow_zero]
    rfl
  | succ d ih =>
    intro n hn
    have hq : 2 ^ d * 2 ≤ n := by
      rw [← pow_succ]
      exact hn
    have hnpos : 0 < n := lt_of_lt_of_le (by positivity) hn
    have hdiv : 2 ^ d ≤ n / 2 := (Nat.le_div_iff_mul_le (by norm_num)).mpr hq
    have hsub : 2 ^ d ≤ n - n / 2 := le_trans hdiv (by omega)
    simp only [medianCutQuantization, List.length_replicate]
    rw [if_neg (by omega)]
    rw [mergeSort_replicate]
    simp only [List.length_replicate, List.take_replicate, List.drop_replicate]
    rw [min_eq_left (Nat.div_le_self n 2), ih (n / 2) hdiv,
      ih (n - n / 2) hsub, ← List.replicate_add]
    congr 1
    rw [pow_succ]
    ring

lemma foldl_dedup_mem (x : List Char) : ∀ (k : ℕ) (acc : List (List Char)), x ∈ acc →
    (List.replicate k x).foldl
      (fun acc y => if y ∈ acc then acc else acc ++ [y]) acc = acc := by
  intro k
  induction k with
  | zero => intro acc h; rfl
  | succ k ih =>
    intro acc h
    rw [List.replicate_succ, List.foldl_cons, if_pos h]
    exact ih acc h

lemma dedupFirst_replicate_pos (m : ℕ) (hm : m ≠ 0) (x : List Char) :
    dedupFirst (List.replicate m x) = [x] := by
  obtain ⟨k, rfl⟩ : ∃ k, m = k + 1 := ⟨m - 1, by omega⟩
  rw [dedupFirst, List.replicate_succ, List.foldl_cons]
  have h0 : (if x ∈ ([] : List (List Char)) then ([] : List (List Char))
      else [] ++ [x]) = [x] := by simp
  rw [h0]
  exact foldl_dedup_mem x k [x] (by simp)

/-- C1 amended: for a sample of a single color `C` repeated `n ≥ 2^d` times
(so that no empty sub-sample arises), median-cut at depth `d` followed by the
hex deduplication yields exactly the one-element palette `[C]`. -/
theorem medianCut_uniform_amended (c : RGB) (n d : ℕ) (hn : 2 ^ d ≤ n) :
    quantizedPalette (List.replicate n c) d = [rgbToHex c.r c.g c.b] := by
  rw [quantizedPalette, medianCut_replicate c d n hn, List.map_replicate]
  exact dedupFirst_replicate_pos _ (by positivity) _

/-- C1 witness: 4 red pixels at depth 2 quantize to the single palette entry
`#ff0000`. -/
theorem medianCut_uniform_amended_witness :
    2 ^ 2 ≤ 4 ∧
      quantizedPalette (List.replicate 4 ⟨255, 0, 0⟩) 2 = [rgbToHex 255 0 0] :=
  ⟨by decide, medianCut_uniform_amended ⟨255, 0, 0⟩ 4 2 (by decide)⟩

lemma mergeSort_singleton (a : RGB) (le : RGB → RGB → Bool) :
    [a].mergeSort le = [a] :=
  List.perm_singleton.mp (List.mergeSort_perm [a] le)

lemma medianCut_single_depth_one (c : RGB) :
    medianCutQuantization [c] 1 = [Option.none, some c] := by
  have hm : meanPixel [c] = some c := by
    have h := meanPixel_replicate c 1 (by omega)
    simpa using h
  show medianCutQuantization [c] (0 + 1) = [Option.none, some c]
  simp only [medianCutQuantization]
  rw [if_neg (by simp)]
  rw [mergeSort_singleton]
  simp only [List.length_cons, List.length_nil]
  rw [show (0 + 1) / 2 = 0 from by omega, List.take_zero, List.drop_zero]
  rw [show meanPixel [] = Option.none from rfl, hm]
  rfl

/-- C1 counterexample: a sample of the single color (255,0,0) (n = 1 ≥ 1) at
depth 1 splits into an empty half and the sample itself; the empty half's
"mean" is the NaN color (hex `"#aN"`), so after dedup the palette has two
entries, not `[C]`. -/
theorem quantizedPalette_single_ne :
    quantizedPalette [(⟨255, 0, 0⟩ : RGB)] 1 ≠ [rgbToHex 255 0 0] := by
  rw [quantizedPalette, medianCut_single_depth_one]
  decide
